import Mathlib

/-!
Verification of the huggingface-go download engine (main.go).

The program under study mirrors a remote repository to local disk.  This file
shallowly embeds the functions of main.go that the verified properties talk
about:

* `downloadFileAtomically` (main.go lines 332-396): one resumable, atomic
  transfer attempt over an explicit filesystem state and an abstract network.
* `downloadFileWithRetry` (main.go lines 307-329): the bounded retry loop with
  quadratic backoff, modelled with a virtual clock in whole seconds so that
  the timing of the sleeps and of cancellation checks is visible in the trace.
* `processFileDownload` (main.go lines 281-304): the per-file worker, with its
  already-present fast path.
* `fetchFileListRecursive` (main.go lines 202-217): the subfolder filter and
  recursion of the tree listing (the HTTP and JSON plumbing of the listing is
  abstracted into a tree of already-parsed entries).
* `Download` (main.go lines 223-251): the dispatch prefix of the run, up to
  the point where the worker pool is started (the pool itself is elided).

Machine integers: all sizes in the Go source are non-negative int64 values
(file sizes from stat and from the listing API); they are modelled as Nat.
File contents are modelled as lists of bytes (List Nat), so that the size of
a file is the length of its content.  Progress-bar additions are int64 and
are modelled as Int.  Durations are modelled in whole seconds.
-/

/-- FileEntry mirrors the Go struct of the same name (main.go lines 58-63). -/
structure FileEntry where
  path : String
  size : Nat
  type : String
  url  : String
deriving DecidableEq, Repr

/-- An HTTP request as issued by the transfer engine: the full request URL and
the resume offset carried by the Range header (none when no Range header is
set).  The literal header text is recovered by `rangeHeaderValue`. -/
structure HttpRequest where
  url : String
  rangeOffset : Option Nat
deriving DecidableEq, Repr

/-- The literal value of the Range header of a request, as formatted by
the Go source: fmt.Sprintf with the pattern bytes=%d- (main.go line 351). -/
def rangeHeaderValue (r : HttpRequest) : Option String :=
  r.rangeOffset.map (fun s => "bytes=" ++ toString s ++ "-")

/-- An HTTP response: status code and body.  `bodyErr = some e` models a
stream that delivers `body` and then fails mid-copy, so io.Copy writes the
delivered bytes and returns an error. -/
structure HttpResponse where
  statusCode : Nat
  body : List Nat
  bodyErr : Option String
deriving DecidableEq, Repr

/-- The local filesystem, as a flat association list from path to file
content.  Earlier entries shadow none: `FS.writeFile` removes any previous
entry for the written path. -/
abbrev FS := List (String × List Nat)

/-- os.Stat, restricted to the size of the file (none when the path does not
exist). -/
def FS.statSize (fs : FS) (p : String) : Option Nat :=
  (List.lookup p fs).map List.length

/-- Read a whole file (none when the path does not exist). -/
def FS.readFile (fs : FS) (p : String) : Option (List Nat) :=
  List.lookup p fs

/-- Create or overwrite the file at `p` with content `c`. -/
def FS.writeFile (fs : FS) (p : String) (c : List Nat) : FS :=
  (p, c) :: fs.filter (fun e => !(e.1 == p))

/-- Delete the file at `p` (no error when absent). -/
def FS.removeFile (fs : FS) (p : String) : FS :=
  fs.filter (fun e => !(e.1 == p))

/-- os.Rename: move `src` onto `dst`, overwriting `dst`; fails when `src`
does not exist. -/
def FS.rename (fs : FS) (src dst : String) : Except String FS :=
  match List.lookup src fs with
  | none => .error "rename: no such file"
  | some c => .ok (FS.writeFile (FS.removeFile fs src) dst c)

/-- The errors the transfer engine can produce, one constructor per
fmt.Errorf site of downloadFileAtomically (main.go lines 340-393).  Every one
of them is retryable: downloadFileWithRetry retries any non-nil error of an
attempt. -/
inductive DLError where
  | netFail (e : String)
  | badStatus (code : Nat)
  | copyFail
  | renameFail
deriving DecidableEq, Repr

/-- The outcome of one transfer attempt: the returned error (or unit), the
filesystem after the attempt, the HTTP requests issued during the attempt,
the bytes added to the run-wide progress counter, and the final value of the
per-file progress bar. -/
structure DLOutcome where
  result : Except DLError Unit
  fs : FS
  requests : List HttpRequest
  totalAdded : Int
  barCurrent : Int
deriving Repr

/-- The resume offset read by downloadFileAtomically (main.go lines 333-337):
the size of the staging file localPath ++ ".tmp", or 0 when it is absent. -/
def resumeOffset (fs : FS) (localPath : String) : Nat :=
  (FS.statSize fs (localPath ++ ".tmp")).getD 0

/-- The single HTTP request built by downloadFileAtomically (main.go lines
339-352): the proxy prefix prepended to the file URL, with a Range header
carrying the resume offset exactly when that offset is positive. -/
def issuedRequest (proxy : String) (file : FileEntry) (localPath : String) (fs : FS) :
    HttpRequest :=
  { url := proxy ++ file.url
    rangeOffset :=
      if 0 < resumeOffset fs localPath then some (resumeOffset fs localPath) else none }

/-- downloadFileAtomically (main.go lines 332-396).  The network is an
abstract function from the issued request to either a transport error or a
response.  Progress-bar calls are reflected in totalAdded and barCurrent;
os.MkdirAll is a no-op in the flat filesystem model; os.OpenFile with
O_APPEND keeps the current staging content while O_TRUNC discards it,
matching lines 368-374 where a full-content response resets the offset. -/
def downloadFileAtomically (net : HttpRequest → Except String HttpResponse)
    (proxy : String) (file : FileEntry) (localPath : String)
    (barCur : Int) (fs : FS) : DLOutcome :=
  let tmpPath := localPath ++ ".tmp"
  let startOffset := resumeOffset fs localPath
  let req := issuedRequest proxy file localPath fs
  if 0 < startOffset ∧ startOffset = file.size then
    match FS.rename fs tmpPath localPath with
    | .ok fs' => ⟨.ok (), fs', [], (file.size : Int) - barCur, (file.size : Int)⟩
    | .error _ => ⟨.error .renameFail, fs, [], (file.size : Int) - barCur, (file.size : Int)⟩
  else
    match net req with
    | .error e => ⟨.error (.netFail e), fs, [req], 0, barCur⟩
    | .ok resp =>
      if resp.statusCode ≠ 200 ∧ resp.statusCode ≠ 206 then
        ⟨.error (.badStatus resp.statusCode), fs, [req], 0, barCur⟩
      else
        let appendMode := resp.statusCode = 206
        let startOffset2 := if appendMode then startOffset else 0
        let existing := if appendMode then (FS.readFile fs tmpPath).getD [] else []
        let newContent := existing ++ resp.body
        let fs1 := FS.writeFile fs tmpPath newContent
        let added := (resp.body.length : Int)
        let cur := (startOffset2 : Int) + (resp.body.length : Int)
        match resp.bodyErr with
        | some _ => ⟨.error .copyFail, fs1, [req], added, cur⟩
        | none =>
          match FS.rename fs1 tmpPath localPath with
          | .ok fs2 => ⟨.ok (), fs2, [req], added, cur⟩
          | .error _ => ⟨.error .renameFail, fs1, [req], added, cur⟩

/-- A response conforms to the request it answers when the body stream does
not fail and the body carries exactly the requested bytes: the full file for
a plain request (status 200), the remainder from the requested offset for a
ranged request (status 206).  This is the server-side contract of section 6
of the specification. -/
def respConforms (file : FileEntry) (off : Option Nat) (resp : HttpResponse) : Prop :=
  resp.bodyErr = none ∧
    match off with
    | none => resp.statusCode = 200 ∧ resp.body.length = file.size
    | some s => resp.statusCode = 206 ∧ s + resp.body.length = file.size

/-- maxRetries (main.go line 39). -/
def maxRetries : Nat := 5

/-- retryDelay (main.go line 40), in whole seconds. -/
def retryDelay : Nat := 3

/-- The backoff delay slept after the failed attempt of zero-based index i
(main.go line 322): time.Duration(i*i)*time.Second + retryDelay, in whole
seconds. -/
def retryDelaySec (i : Nat) : Nat :=
  i * i + retryDelay

/-- Whether the select on ctx.Done() at the top of the retry loop observes
the cancellation signal: true exactly when the signal was raised at or
before the current virtual time. -/
def cancelDone (cancelAt : Option Nat) (time : Nat) : Bool :=
  match cancelAt with
  | some t => decide (t ≤ time)
  | none => false

/-- How a run of the retry loop ended: the attempt succeeded, the loop
returned ctx.Err() at a loop-top check, or the loop exhausted its attempts
and returned the last error. -/
inductive RetryResult (ε : Type) where
  | success
  | cancelled
  | failed (e : ε)
deriving DecidableEq, Repr

/-- True exactly on an error result. -/
def Except.failed {ε α : Type} : Except ε α → Bool
  | .error _ => true
  | .ok _ => false

/-- The trace of a retry-loop run: how it ended, the threaded worker state,
the number of calls made to the attempt function, the durations (in seconds)
of the sleeps actually performed, in order, and the virtual finish time in
seconds (attempts and checks are instantaneous; only sleeps advance time). -/
structure RetryOutcome (ε σ : Type) where
  result : RetryResult ε
  state : σ
  attempts : Nat
  sleeps : List Nat
  finishTime : Nat
deriving Repr

/-- The loop body of downloadFileWithRetry (main.go lines 308-328), indexed
by the remaining number of iterations (`fuel`, with i = maxRetries - fuel):
check ctx.Done(); run the attempt; on success return nil; on error record it
as lastErr, sleep the full backoff delay (time.Sleep is not interruptible by
the context, so the whole delay always elapses), and continue.  When the
iterations are exhausted the last error is returned. -/
def retryLoop {ε σ : Type} (fn : Nat → σ → Except ε Unit × σ) (cancelAt : Option Nat) :
    Nat → Nat → Nat → Option ε → σ → RetryOutcome ε σ
  | 0, _, time, lastErr, st =>
      ⟨match lastErr with | some e => .failed e | none => .success, st, 0, [], time⟩
  | fuel + 1, i, time, _lastErr, st =>
      if cancelDone cancelAt time then
        ⟨.cancelled, st, 0, [], time⟩
      else
        match fn i st with
        | (.ok _, st') => ⟨.success, st', 1, [], time⟩
        | (.error e, st') =>
          let d := retryDelaySec i
          let rest := retryLoop fn cancelAt fuel (i + 1) (time + d) (some e) st'
          ⟨rest.result, rest.state, rest.attempts + 1, d :: rest.sleeps, rest.finishTime⟩

/-- downloadFileWithRetry (main.go lines 307-329): the retry loop started at
attempt index 0 and virtual time 0, with maxRetries iterations. -/
def downloadFileWithRetry {ε σ : Type} (fn : Nat → σ → Except ε Unit × σ)
    (cancelAt : Option Nat) (st : σ) : RetryOutcome ε σ :=
  retryLoop fn cancelAt maxRetries 0 0 none st

/-- The retry policy specialised to a stateless attempt function, matching
the withRetry(fn, maxAttempts) contract of the specification. -/
def withRetry {ε : Type} (f : Nat → Except ε Unit) (cancelAt : Option Nat) :
    RetryOutcome ε Unit :=
  downloadFileWithRetry (fun i _ => (f i, ())) cancelAt ()

/-- The state threaded through the attempts of one worker: the filesystem,
the requests issued so far, and the bytes reported to the run-wide progress
counter so far. -/
structure WorkerState where
  fs : FS
  requests : List HttpRequest
  totalAdded : Int
deriving Repr

/-- One attempt of the worker for one file: run downloadFileAtomically on
the current filesystem and accumulate its requests and progress additions.
The per-file bar is at 0 at the start of every attempt (it starts at 0 and
the retry loop resets it to 0 after every failure, main.go line 326). -/
def fileAttempt (net : HttpRequest → Except String HttpResponse)
    (proxy : String) (file : FileEntry) (localPath : String) :
    Nat → WorkerState → Except DLError Unit × WorkerState :=
  fun _ ws =>
    let o := downloadFileAtomically net proxy file localPath 0 ws.fs
    (o.result, ⟨o.fs, ws.requests ++ o.requests, ws.totalAdded + o.totalAdded⟩)

/-- The error returned by processFileDownload for one file. -/
inductive PFDError where
  | cancelled
  | exhausted (e : DLError)
deriving DecidableEq, Repr

/-- The outcome of processFileDownload for one file. -/
structure PFDOutcome where
  result : Except PFDError Unit
  fs : FS
  requests : List HttpRequest
  totalAdded : Int
deriving Repr

/-- processFileDownload (main.go lines 281-304).  localFilePath is the join
of the local model directory and the relative path of the file (the model
joins with a single slash; both components are plain non-empty relative
paths in the program).  When the final path already exists with exactly the
expected size, the full size is reported to the run-wide counter and the
function returns nil at once; otherwise the retried download runs and a
non-nil result is wrapped into a failure message. -/
def processFileDownload (net : HttpRequest → Except String HttpResponse)
    (proxy localModelDir : String) (cancelAt : Option Nat)
    (file : FileEntry) (fs : FS) : PFDOutcome :=
  let localFilePath := localModelDir ++ "/" ++ file.path
  if FS.statSize fs localFilePath = some file.size then
    ⟨.ok (), fs, [], (file.size : Int)⟩
  else
    let o := downloadFileWithRetry (fileAttempt net proxy file localFilePath) cancelAt
      ⟨fs, [], 0⟩
    match o.result with
    | .success => ⟨.ok (), o.state.fs, o.state.requests, o.state.totalAdded⟩
    | .cancelled => ⟨.error .cancelled, o.state.fs, o.state.requests, o.state.totalAdded⟩
    | .failed e => ⟨.error (.exhausted e), o.state.fs, o.state.requests, o.state.totalAdded⟩

/-- Whether `pre` is an initial segment of `s`, on the underlying character
lists; this is the semantics of strings.HasPrefix in the Go standard
library. -/
def charsStartWith : List Char → List Char → Bool
  | [], _ => true
  | _ :: _, [] => false
  | c :: cs, d :: ds => c == d && charsStartWith cs ds

/-- strings.HasPrefix(s, pre). -/
def strStartsWith (s pre : String) : Bool :=
  charsStartWith pre.data s.data

/-- The file-inclusion condition of fetchFileListRecursive (main.go line
204), with the three disjuncts in source order: no subfolder filter is set,
or the entry path is nested under filter ++ "/", or it equals the filter. -/
def fileIncluded (filter p : String) : Bool :=
  (filter == "") || strStartsWith p (filter ++ "/") || (p == filter)

mutual
/-- One already-parsed entry of the remote tree: a file with its repo-root
relative path and size, or a directory whose recursive listing yields the
given child entries.  This abstracts the tree listing API of main.go lines
161-200: each directory query is assumed to succeed and return its
already-unmarshalled entries. -/
inductive RemoteEntry : Type where
| file : String → Nat → RemoteEntry
| dir : String → RemoteEntries → RemoteEntry
deriving Repr
/-- A listing response: the sequence of entries of one directory. -/
inductive RemoteEntries : Type where
| nil : RemoteEntries
| cons : RemoteEntry → RemoteEntries → RemoteEntries
deriving Repr
end

/-- The descriptor built for an included file (main.go lines 205-208): the
download URL is produced by the URL constructor `mk` (joining mirror host,
resolve base path, branch and file path), abstracted here as a function of
the file path. -/
def mkDescriptor (mk : String → String) (pr : String × Nat) : FileEntry :=
  ⟨pr.1, pr.2, "file", mk pr.1⟩

mutual
/-- The body of the entry loop of fetchFileListRecursive (main.go lines
202-217) for a single raw entry: a file is included exactly when
`fileIncluded` holds of its path, a directory is recursed into regardless of
the filter. -/
def fetchFileListEntry (filter : String) (mk : String → String) :
    RemoteEntry → List FileEntry
  | .file p sz =>
      if fileIncluded filter p then [mkDescriptor mk (p, sz)] else []
  | .dir _ children => fetchFileListRecursive filter mk children
/-- fetchFileListRecursive (main.go lines 202-217), over the abstract remote
tree: the concatenation, in listing order, of what each raw entry
contributes. -/
def fetchFileListRecursive (filter : String) (mk : String → String) :
    RemoteEntries → List FileEntry
  | .nil => []
  | .cons e rest => fetchFileListEntry filter mk e ++ fetchFileListRecursive filter mk rest
end

mutual
/-- All file leaves below one raw entry, with their paths and sizes, ignoring
any filter. -/
def entryFiles : RemoteEntry → List (String × Nat)
  | .file p sz => [(p, sz)]
  | .dir _ children => entriesFiles children
/-- All file leaves below a sequence of raw entries. -/
def entriesFiles : RemoteEntries → List (String × Nat)
  | .nil => []
  | .cons e rest => entryFiles e ++ entriesFiles rest
end

/-- Download (main.go lines 223-251), up to the start of the worker pool.
The tree listing is abstracted as its result.  A listing failure is wrapped
and returned; an empty file list prints a notice and returns nil, modelled
as .ok none; otherwise the total size is computed and the transfer phase is
entered, modelled as .ok (some (files, totalSize)). -/
def Download (fetchResult : Except String (List FileEntry)) :
    Except String (Option (List FileEntry × Nat)) :=
  match fetchResult with
  | .error e => .error ("failed to fetch file list: " ++ e)
  | .ok allFiles =>
    if allFiles.length = 0 then
      .ok none
    else
      .ok (some (allFiles, (allFiles.map FileEntry.size).sum))

/-! Helper lemmas about the filesystem model. -/

theorem lookup_filterNe (fs : FS) (p q : String) (h : q ≠ p) :
    List.lookup q (fs.filter (fun e => !(e.1 == p))) = List.lookup q fs := by
  induction fs with
  | nil => rfl
  | cons a rest ih =>
    obtain ⟨k, v⟩ := a
    by_cases hk : k = p
    · subst hk
      have hq : (q == k) = false := beq_false_of_ne h
      simp [List.filter_cons, List.lookup, hq, ih]
    · by_cases hq : q = k
      · subst hq
        simp [List.filter_cons, List.lookup, hk]
      · simp [List.filter_cons, List.lookup, beq_false_of_ne hq, hk, ih]

theorem lookup_filterSelf (fs : FS) (p : String) :
    List.lookup p (fs.filter (fun e => !(e.1 == p))) = none := by
  induction fs with
  | nil => rfl
  | cons a rest ih =>
    obtain ⟨k, v⟩ := a
    by_cases hk : k = p
    · subst hk; simp [List.filter_cons, ih]
    · simp [List.filter_cons, hk, List.lookup, beq_false_of_ne (Ne.symm hk), ih]

theorem lookup_writeFile (fs : FS) (p : String) (c : List Nat) (q : String) :
    List.lookup q (FS.writeFile fs p c) = if q = p then some c else List.lookup q fs := by
  by_cases h : q = p
  · subst h; simp [FS.writeFile, List.lookup]
  · simp [FS.writeFile, List.lookup, beq_false_of_ne h, h, lookup_filterNe fs p q h]

theorem lookup_removeFile (fs : FS) (p q : String) :
    List.lookup q (FS.removeFile fs p) = if q = p then none else List.lookup q fs := by
  by_cases h : q = p
  · subst h; simp [FS.removeFile, lookup_filterSelf]
  · simp [FS.removeFile, h, lookup_filterNe fs p q h]

theorem tmpPath_ne (s : String) : s ++ ".tmp" ≠ s := by
  intro h
  have h2 : (s ++ ".tmp").data.length = s.data.length := by rw [h]
  rw [String.data_append, List.length_append] at h2
  have h3 : (".tmp" : String).data.length = 4 := rfl
  omega

/-- The content written to the staging file by a streaming branch of
downloadFileAtomically answering with `resp`. -/
def streamedContent (fs : FS) (localPath : String) (resp : HttpResponse) : List Nat :=
  (if resp.statusCode = 206 then (FS.readFile fs (localPath ++ ".tmp")).getD [] else [])
    ++ resp.body

theorem dla_complete (net : HttpRequest → Except String HttpResponse) (proxy : String)
    (file : FileEntry) (localPath : String) (barCur : Int) (fs : FS) (c : List Nat)
    (hlk : List.lookup (localPath ++ ".tmp") fs = some c)
    (h1 : 0 < c.length) (h2 : c.length = file.size) :
    downloadFileAtomically net proxy file localPath barCur fs =
      ⟨.ok (), FS.writeFile (FS.removeFile fs (localPath ++ ".tmp")) localPath c, [],
        (file.size : Int) - barCur, (file.size : Int)⟩ := by
  have hro : resumeOffset fs localPath = c.length := by
    simp [resumeOffset, FS.statSize, hlk]
  unfold downloadFileAtomically
  rw [if_pos ⟨hro ▸ h1, hro ▸ h2⟩]
  simp [FS.rename, hlk]

theorem dla_netErr (net : HttpRequest → Except String HttpResponse) (proxy : String)
    (file : FileEntry) (localPath : String) (barCur : Int) (fs : FS) (e : String)
    (hc : ¬(0 < resumeOffset fs localPath ∧ resumeOffset fs localPath = file.size))
    (hnet : net (issuedRequest proxy file localPath fs) = .error e) :
    downloadFileAtomically net proxy file localPath barCur fs =
      ⟨.error (.netFail e), fs, [issuedRequest proxy file localPath fs], 0, barCur⟩ := by
  unfold downloadFileAtomically
  rw [if_neg hc, hnet]

theorem dla_badStatus (net : HttpRequest → Except String HttpResponse) (proxy : String)
    (file : FileEntry) (localPath : String) (barCur : Int) (fs : FS) (resp : HttpResponse)
    (hc : ¬(0 < resumeOffset fs localPath ∧ resumeOffset fs localPath = file.size))
    (hnet : net (issuedRequest proxy file localPath fs) = .ok resp)
    (hb : resp.statusCode ≠ 200 ∧ resp.statusCode ≠ 206) :
    downloadFileAtomically net proxy file localPath barCur fs =
      ⟨.error (.badStatus resp.statusCode), fs,
        [issuedRequest proxy file localPath fs], 0, barCur⟩ := by
  unfold downloadFileAtomically
  rw [if_neg hc, hnet]
  simp only []
  rw [if_pos hb]

theorem dla_copyErr (net : HttpRequest → Except String HttpResponse) (proxy : String)
    (file : FileEntry) (localPath : String) (barCur : Int) (fs : FS)
    (resp : HttpResponse) (e : String)
    (hc : ¬(0 < resumeOffset fs localPath ∧ resumeOffset fs localPath = file.size))
    (hnet : net (issuedRequest proxy file localPath fs) = .ok resp)
    (hb : ¬(resp.statusCode ≠ 200 ∧ resp.statusCode ≠ 206))
    (hbody : resp.bodyErr = some e) :
    downloadFileAtomically net proxy file localPath barCur fs =
      ⟨.error .copyFail,
        FS.writeFile fs (localPath ++ ".tmp") (streamedContent fs localPath resp),
        [issuedRequest proxy file localPath fs], (resp.body.length : Int),
        ((if resp.statusCode = 206 then resumeOffset fs localPath else 0 : Nat) : Int)
          + (resp.body.length : Int)⟩ := by
  unfold downloadFileAtomically
  rw [if_neg hc, hnet]
  simp only []
  rw [if_neg hb, hbody]
  rfl

theorem dla_streamOk (net : HttpRequest → Except String HttpResponse) (proxy : String)
    (file : FileEntry) (localPath : String) (barCur : Int) (fs : FS) (resp : HttpResponse)
    (hc : ¬(0 < resumeOffset fs localPath ∧ resumeOffset fs localPath = file.size))
    (hnet : net (issuedRequest proxy file localPath fs) = .ok resp)
    (hb : ¬(resp.statusCode ≠ 200 ∧ resp.statusCode ≠ 206))
    (hbody : resp.bodyErr = none) :
    downloadFileAtomically net proxy file localPath barCur fs =
      ⟨.ok (),
        FS.writeFile
          (FS.removeFile (FS.writeFile fs (localPath ++ ".tmp") (streamedContent fs localPath resp))
            (localPath ++ ".tmp"))
          localPath (streamedContent fs localPath resp),
        [issuedRequest proxy file localPath fs], (resp.body.length : Int),
        ((if resp.statusCode = 206 then resumeOffset fs localPath else 0 : Nat) : Int)
          + (resp.body.length : Int)⟩ := by
  unfold downloadFileAtomically
  rw [if_neg hc, hnet]
  simp only []
  rw [if_neg hb, hbody]
  have hren : FS.rename
      (FS.writeFile fs (localPath ++ ".tmp") (streamedContent fs localPath resp))
      (localPath ++ ".tmp") localPath =
      .ok (FS.writeFile
        (FS.removeFile (FS.writeFile fs (localPath ++ ".tmp") (streamedContent fs localPath resp))
          (localPath ++ ".tmp"))
        localPath (streamedContent fs localPath resp)) := by
    unfold FS.rename
    rw [lookup_writeFile]
    simp
  rw [show streamedContent fs localPath resp =
      (if resp.statusCode = 206 then (FS.readFile fs (localPath ++ ".tmp")).getD [] else [])
        ++ resp.body from rfl] at hren
  rw [hren]
  rfl

theorem dla_requests (net : HttpRequest → Except String HttpResponse) (proxy : String)
    (file : FileEntry) (localPath : String) (barCur : Int) (fs : FS)
    (hc : ¬(0 < resumeOffset fs localPath ∧ resumeOffset fs localPath = file.size)) :
    (downloadFileAtomically net proxy file localPath barCur fs).requests
      = [issuedRequest proxy file localPath fs] := by
  rcases hnet : net (issuedRequest proxy file localPath fs) with e | resp
  · rw [dla_netErr net proxy file localPath barCur fs e hc hnet]
  · by_cases hb : resp.statusCode ≠ 200 ∧ resp.statusCode ≠ 206
    · rw [dla_badStatus net proxy file localPath barCur fs resp hc hnet hb]
    · rcases hbody : resp.bodyErr with _ | e2
      · rw [dla_streamOk net proxy file localPath barCur fs resp hc hnet hb hbody]
      · rw [dla_copyErr net proxy file localPath barCur fs resp e2 hc hnet hb hbody]

theorem staging_content_of_offset (fs : FS) (localPath : String) (s : Nat)
    (hs : FS.statSize fs (localPath ++ ".tmp") = some s) :
    ∃ c, List.lookup (localPath ++ ".tmp") fs = some c ∧ c.length = s := by
  rcases hlk : List.lookup (localPath ++ ".tmp") fs with _ | c
  · rw [FS.statSize, hlk] at hs; simp at hs
  · rw [FS.statSize, hlk] at hs
    exact ⟨c, rfl, by simpa using hs⟩

theorem resumeOffset_eq (fs : FS) (localPath : String) (s : Nat)
    (hs : FS.statSize fs (localPath ++ ".tmp") = some s) :
    resumeOffset fs localPath = s := by
  rw [resumeOffset, hs]; rfl

/-- C1: for every file descriptor, when the server answers the issued request
conformantly (status 200 with the whole file for a plain request, status 206
with exactly the remaining bytes for a ranged request), a successful return
of downloadFileAtomically leaves the final local path existing with size
exactly the declared descriptor size, and the staging path (final path ++
".tmp") no longer exists. -/
theorem downloadFileAtomically_success_commitsFinalSize
    (net : HttpRequest → Except String HttpResponse) (proxy : String)
    (file : FileEntry) (localPath : String) (barCur : Int) (fs : FS)
    (hconf : ∀ off resp, net ⟨proxy ++ file.url, off⟩ = .ok resp → respConforms file off resp)
    (hok : (downloadFileAtomically net proxy file localPath barCur fs).result = .ok ()) :
    FS.statSize (downloadFileAtomically net proxy file localPath barCur fs).fs localPath
        = some file.size ∧
    FS.statSize (downloadFileAtomically net proxy file localPath barCur fs).fs
        (localPath ++ ".tmp") = none := by
  by_cases hc : 0 < resumeOffset fs localPath ∧ resumeOffset fs localPath = file.size
  · obtain ⟨h1, h2⟩ := hc
    obtain ⟨c, hlk, hlen⟩ : ∃ c, List.lookup (localPath ++ ".tmp") fs = some c
        ∧ c.length = resumeOffset fs localPath := by
      rcases hlk : List.lookup (localPath ++ ".tmp") fs with _ | c
      · exfalso
        rw [resumeOffset, FS.statSize, hlk] at h1
        simp at h1
      · exact ⟨c, rfl, by rw [resumeOffset, FS.statSize, hlk]; rfl⟩
    rw [dla_complete net proxy file localPath barCur fs c hlk (by omega) (by omega)]
    constructor
    · simp [FS.statSize, lookup_writeFile]
      omega
    · simp [FS.statSize, lookup_writeFile, tmpPath_ne localPath, lookup_removeFile]
  · rcases hnet : net (issuedRequest proxy file localPath fs) with e | resp
    · rw [dla_netErr net proxy file localPath barCur fs e hc hnet] at hok
      simp at hok
    · have hcf := hconf (issuedRequest proxy file localPath fs).rangeOffset resp hnet
      obtain ⟨hbe, hrest⟩ := hcf
      by_cases h0 : 0 < resumeOffset fs localPath
      · -- ranged request was issued
        have hoff : (issuedRequest proxy file localPath fs).rangeOffset
            = some (resumeOffset fs localPath) := by
          simp [issuedRequest, h0]
        rw [hoff] at hrest
        obtain ⟨h206, hsum⟩ := hrest
        have hb : ¬(resp.statusCode ≠ 200 ∧ resp.statusCode ≠ 206) := by
          rw [h206]; simp
        rw [dla_streamOk net proxy file localPath barCur fs resp hc hnet hb hbe]
        obtain ⟨c, hlk, hlen⟩ : ∃ c, List.lookup (localPath ++ ".tmp") fs = some c
            ∧ c.length = resumeOffset fs localPath := by
          rcases hlk : List.lookup (localPath ++ ".tmp") fs with _ | c
          · exfalso
            rw [resumeOffset, FS.statSize, hlk] at h0
            simp at h0
          · exact ⟨c, rfl, by rw [resumeOffset, FS.statSize, hlk]; rfl⟩
        have hnc : (streamedContent fs localPath resp).length = file.size := by
          rw [streamedContent, h206]
          simp [FS.readFile, hlk]
          omega
        constructor
        · simp [FS.statSize, lookup_writeFile, hnc]
        · simp [FS.statSize, lookup_writeFile, tmpPath_ne localPath, lookup_removeFile]
      · -- plain request: no Range header
        have hoff : (issuedRequest proxy file localPath fs).rangeOffset = none := by
          simp [issuedRequest, h0]
        rw [hoff] at hrest
        obtain ⟨h200, hlen⟩ := hrest
        have hb : ¬(resp.statusCode ≠ 200 ∧ resp.statusCode ≠ 206) := by
          rw [h200]; simp
        rw [dla_streamOk net proxy file localPath barCur fs resp hc hnet hb hbe]
        have hnc : (streamedContent fs localPath resp).length = file.size := by
          rw [streamedContent, h200]
          simp [hlen]
        constructor
        · simp [FS.statSize, lookup_writeFile, hnc]
        · simp [FS.statSize, lookup_writeFile, tmpPath_ne localPath, lookup_removeFile]

/-- C3: resume behaviour of downloadFileAtomically.  With a staging file of
size s, 0 < s < target: exactly one HTTP request is issued and it carries a
Range header whose literal value is bytes=s- (first conjunct).  With an
absent or empty staging file: exactly one request, with no Range header
(second conjunct).  With a staging file of exactly the target size (s
positive): no request at all, and the staging file is renamed onto the final
path (third conjunct). -/
theorem downloadFileAtomically_resume_ranged
    (net : HttpRequest → Except String HttpResponse) (proxy : String)
    (file : FileEntry) (localPath : String) (barCur : Int) (fs : FS) :
    (∀ s, FS.statSize fs (localPath ++ ".tmp") = some s → 0 < s → s < file.size →
       (downloadFileAtomically net proxy file localPath barCur fs).requests
           = [⟨proxy ++ file.url, some s⟩] ∧
       ((downloadFileAtomically net proxy file localPath barCur fs).requests).map
           rangeHeaderValue = [some ("bytes=" ++ toString s ++ "-")]) ∧
    ((FS.statSize fs (localPath ++ ".tmp") = none
        ∨ FS.statSize fs (localPath ++ ".tmp") = some 0) →
       (downloadFileAtomically net proxy file localPath barCur fs).requests
           = [⟨proxy ++ file.url, none⟩]) ∧
    (∀ s, FS.statSize fs (localPath ++ ".tmp") = some s → 0 < s → s = file.size →
       (downloadFileAtomically net proxy file localPath barCur fs).requests = [] ∧
       (downloadFileAtomically net proxy file localPath barCur fs).result = .ok () ∧
       FS.statSize (downloadFileAtomically net proxy file localPath barCur fs).fs localPath
           = some file.size ∧
       FS.statSize (downloadFileAtomically net proxy file localPath barCur fs).fs
           (localPath ++ ".tmp") = none) := by
  refine ⟨?p1, ?p2, ?p3⟩
  case p1 =>
    intro s hs h0 hlt
    have hro := resumeOffset_eq fs localPath s hs
    have hc : ¬(0 < resumeOffset fs localPath ∧ resumeOffset fs localPath = file.size) := by
      rw [hro]; omega
    rw [dla_requests net proxy file localPath barCur fs hc]
    constructor
    · simp [issuedRequest, hro, h0]
    · simp [issuedRequest, hro, h0, rangeHeaderValue]
  case p2 =>
    intro hs
    have hro : resumeOffset fs localPath = 0 := by
      rcases hs with hs | hs <;> rw [resumeOffset, hs] <;> rfl
    have hc : ¬(0 < resumeOffset fs localPath ∧ resumeOffset fs localPath = file.size) := by
      rw [hro]; omega
    rw [dla_requests net proxy file localPath barCur fs hc]
    simp [issuedRequest, hro]
  case p3 =>
    intro s hs h0 heq
    obtain ⟨c, hlk, hlen⟩ := staging_content_of_offset fs localPath s hs
    rw [dla_complete net proxy file localPath barCur fs c hlk (by omega) (by omega)]
    refine ⟨rfl, rfl, ?_, ?_⟩
    · simp [FS.statSize, lookup_writeFile]
      omega
    · simp [FS.statSize, lookup_writeFile, tmpPath_ne localPath, lookup_removeFile]

/-- C8: a response whose status is neither 200 nor 206 makes
downloadFileAtomically return an error (a retryable one: the retry loop of
downloadFileWithRetry retries every attempt error) while leaving the
filesystem, and in particular the staging file, untouched (first conjunct);
and on every error return, whatever its cause, a staging file that existed
before the attempt still exists after it — the engine never deletes the
staging file on a failure path (second conjunct). -/
theorem downloadFileAtomically_badStatus_retryable_keepsStaging
    (net : HttpRequest → Except String HttpResponse) (proxy : String)
    (file : FileEntry) (localPath : String) (barCur : Int) (fs : FS) :
    (∀ resp, net (issuedRequest proxy file localPath fs) = .ok resp →
       resp.statusCode ≠ 200 → resp.statusCode ≠ 206 →
       ¬(0 < resumeOffset fs localPath ∧ resumeOffset fs localPath = file.size) →
       (downloadFileAtomically net proxy file localPath barCur fs).result
           = .error (.badStatus resp.statusCode) ∧
       (downloadFileAtomically net proxy file localPath barCur fs).fs = fs) ∧
    (∀ e, (downloadFileAtomically net proxy file localPath barCur fs).result = .error e →
       (FS.statSize fs (localPath ++ ".tmp")).isSome = true →
       (FS.statSize (downloadFileAtomically net proxy file localPath barCur fs).fs
           (localPath ++ ".tmp")).isSome = true) := by
  constructor
  · intro resp hnet h200 h206 hc
    rw [dla_badStatus net proxy file localPath barCur fs resp hc hnet ⟨h200, h206⟩]
    exact ⟨rfl, rfl⟩
  · intro e herr hsome
    by_cases hc : 0 < resumeOffset fs localPath ∧ resumeOffset fs localPath = file.size
    · obtain ⟨h1, h2⟩ := hc
      obtain ⟨s, hs⟩ : ∃ s, FS.statSize fs (localPath ++ ".tmp") = some s := by
        rcases hq : FS.statSize fs (localPath ++ ".tmp") with _ | s
        · rw [hq] at hsome; simp at hsome
        · exact ⟨s, rfl⟩
      obtain ⟨c, hlk, hlen⟩ := staging_content_of_offset fs localPath s hs
      have hro := resumeOffset_eq fs localPath s hs
      rw [dla_complete net proxy file localPath barCur fs c hlk (by omega) (by omega)] at herr
      simp at herr
    · rcases hnet : net (issuedRequest proxy file localPath fs) with e2 | resp
      · rw [dla_netErr net proxy file localPath barCur fs e2 hc hnet]
        exact hsome
      · by_cases hb : resp.statusCode ≠ 200 ∧ resp.statusCode ≠ 206
        · rw [dla_badStatus net proxy file localPath barCur fs resp hc hnet hb]
          exact hsome
        · rcases hbody : resp.bodyErr with _ | e3
          · rw [dla_streamOk net proxy file localPath barCur fs resp hc hnet hb hbody] at herr
            simp at herr
          · rw [dla_copyErr net proxy file localPath barCur fs resp e3 hc hnet hb hbody]
            simp [FS.statSize, lookup_writeFile]

theorem downloadFileAtomically_success_commitsFinalSize_witness :
    FS.statSize (downloadFileAtomically
        (fun r => match r.rangeOffset with
          | none => .ok ⟨200, [7, 7, 7], none⟩
          | some s => if s ≤ 3 then .ok ⟨206, List.replicate (3 - s) 7, none⟩
                      else .error "range")
        "" ⟨"a.bin", 3, "file", "u/a.bin"⟩ "m/a.bin" 0 []).fs "m/a.bin" = some 3 ∧
    FS.statSize (downloadFileAtomically
        (fun r => match r.rangeOffset with
          | none => .ok ⟨200, [7, 7, 7], none⟩
          | some s => if s ≤ 3 then .ok ⟨206, List.replicate (3 - s) 7, none⟩
                      else .error "range")
        "" ⟨"a.bin", 3, "file", "u/a.bin"⟩ "m/a.bin" 0 []).fs ("m/a.bin" ++ ".tmp")
      = none := by
  refine downloadFileAtomically_success_commitsFinalSize _ "" ⟨"a.bin", 3, "file", "u/a.bin"⟩
    "m/a.bin" 0 [] ?hconf ?hok
  case hconf =>
    intro off resp h
    cases off with
    | none =>
      rcases h with ⟨⟩
      exact ⟨rfl, rfl, rfl⟩
    | some s =>
      have h' : (if s ≤ 3 then
            (Except.ok ⟨206, List.replicate (3 - s) 7, none⟩ : Except String HttpResponse)
          else .error "range") = .ok resp := h
      by_cases hs : s ≤ 3
      · rw [if_pos hs] at h'
        rcases h' with ⟨⟩
        refine ⟨rfl, rfl, ?_⟩
        simp
        omega
      · rw [if_neg hs] at h'
        cases h'
  case hok => rfl

theorem downloadFileAtomically_resume_ranged_witness :
    ((downloadFileAtomically (fun _ => .error "down") ""
        ⟨"a.bin", 3, "file", "u/a.bin"⟩ "m/a.bin" 0
        [("m/a.bin.tmp", [9])]).requests = [⟨"" ++ "u/a.bin", some 1⟩] ∧
      ((downloadFileAtomically (fun _ => .error "down") ""
        ⟨"a.bin", 3, "file", "u/a.bin"⟩ "m/a.bin" 0
        [("m/a.bin.tmp", [9])]).requests).map rangeHeaderValue
          = [some ("bytes=" ++ toString 1 ++ "-")]) ∧
    ((downloadFileAtomically (fun _ => .error "down") ""
        ⟨"a.bin", 3, "file", "u/a.bin"⟩ "m/a.bin" 0 []).requests
          = [⟨"" ++ "u/a.bin", none⟩]) ∧
    ((downloadFileAtomically (fun _ => .error "down") ""
        ⟨"a.bin", 3, "file", "u/a.bin"⟩ "m/a.bin" 0
        [("m/a.bin.tmp", [1, 2, 3])]).requests = [] ∧
      (downloadFileAtomically (fun _ => .error "down") ""
        ⟨"a.bin", 3, "file", "u/a.bin"⟩ "m/a.bin" 0
        [("m/a.bin.tmp", [1, 2, 3])]).result = .ok () ∧
      FS.statSize (downloadFileAtomically (fun _ => .error "down") ""
        ⟨"a.bin", 3, "file", "u/a.bin"⟩ "m/a.bin" 0
        [("m/a.bin.tmp", [1, 2, 3])]).fs "m/a.bin" = some 3 ∧
      FS.statSize (downloadFileAtomically (fun _ => .error "down") ""
        ⟨"a.bin", 3, "file", "u/a.bin"⟩ "m/a.bin" 0
        [("m/a.bin.tmp", [1, 2, 3])]).fs ("m/a.bin" ++ ".tmp") = none) := by
  refine ⟨?w1, ?w2, ?w3⟩
  case w1 =>
    exact (downloadFileAtomically_resume_ranged (fun _ => .error "down") ""
      ⟨"a.bin", 3, "file", "u/a.bin"⟩ "m/a.bin" 0 [("m/a.bin.tmp", [9])]).1
      1 (by rfl) (by decide) (by decide)
  case w2 =>
    exact (downloadFileAtomically_resume_ranged (fun _ => .error "down") ""
      ⟨"a.bin", 3, "file", "u/a.bin"⟩ "m/a.bin" 0 []).2.1 (Or.inl rfl)
  case w3 =>
    exact (downloadFileAtomically_resume_ranged (fun _ => .error "down") ""
      ⟨"a.bin", 3, "file", "u/a.bin"⟩ "m/a.bin" 0 [("m/a.bin.tmp", [1, 2, 3])]).2.2
      3 (by rfl) (by decide) (by decide)

theorem downloadFileAtomically_badStatus_retryable_keepsStaging_witness :
    ((downloadFileAtomically (fun _ => .ok ⟨503, [], none⟩) ""
        ⟨"a.bin", 3, "file", "u/a.bin"⟩ "m/a.bin" 0
        [("m/a.bin.tmp", [5])]).result = .error (.badStatus 503) ∧
      (downloadFileAtomically (fun _ => .ok ⟨503, [], none⟩) ""
        ⟨"a.bin", 3, "file", "u/a.bin"⟩ "m/a.bin" 0
        [("m/a.bin.tmp", [5])]).fs = [("m/a.bin.tmp", [5])]) ∧
    (FS.statSize (downloadFileAtomically (fun _ => .ok ⟨503, [], none⟩) ""
        ⟨"a.bin", 3, "file", "u/a.bin"⟩ "m/a.bin" 0
        [("m/a.bin.tmp", [5])]).fs ("m/a.bin" ++ ".tmp")).isSome = true := by
  constructor
  · exact (downloadFileAtomically_badStatus_retryable_keepsStaging
      (fun _ => .ok ⟨503, [], none⟩) "" ⟨"a.bin", 3, "file", "u/a.bin"⟩ "m/a.bin" 0
      [("m/a.bin.tmp", [5])]).1 ⟨503, [], none⟩ rfl (by decide) (by decide) (by decide)
  · exact (downloadFileAtomically_badStatus_retryable_keepsStaging
      (fun _ => .ok ⟨503, [], none⟩) "" ⟨"a.bin", 3, "file", "u/a.bin"⟩ "m/a.bin" 0
      [("m/a.bin.tmp", [5])]).2 (.badStatus 503) (by rfl) (by rfl)

/-- C2: a file already present at the final path with exactly the expected
size makes processFileDownload return success immediately: no network
request is issued, the full descriptor size is added to the run-wide
progress counter, and the filesystem is left entirely unchanged. -/
theorem processFileDownload_alreadyComplete_noNetwork
    (net : HttpRequest → Except String HttpResponse) (proxy localModelDir : String)
    (cancelAt : Option Nat) (file : FileEntry) (fs : FS)
    (h : FS.statSize fs (localModelDir ++ "/" ++ file.path) = some file.size) :
    processFileDownload net proxy localModelDir cancelAt file fs
      = ⟨.ok (), fs, [], (file.size : Int)⟩ := by
  unfold processFileDownload
  rw [if_pos h]

theorem processFileDownload_alreadyComplete_noNetwork_witness :
    processFileDownload (fun _ => .error "down") "" "m" none
      ⟨"a.bin", 3, "file", "u/a.bin"⟩ [("m/a.bin", [1, 2, 3])]
      = ⟨.ok (), [("m/a.bin", [1, 2, 3])], [], (3 : Int)⟩ :=
  processFileDownload_alreadyComplete_noNetwork (fun _ => .error "down") "" "m" none
    ⟨"a.bin", 3, "file", "u/a.bin"⟩ [("m/a.bin", [1, 2, 3])] (by rfl)

/-- The delays of attempts i, i+1, ..., i+n-1, in order. -/
def delaysFrom (i n : Nat) : List Nat :=
  (List.range n).map (fun j => retryDelaySec (i + j))

/-- The total backoff slept across attempts i, ..., i+n-1. -/
def sumDelays (i n : Nat) : Nat :=
  (delaysFrom i n).sum

theorem delaysFrom_succ (i n : Nat) :
    delaysFrom i (n + 1) = retryDelaySec i :: delaysFrom (i + 1) n := by
  unfold delaysFrom
  rw [List.range_succ_eq_map]
  simp only [List.map_cons, List.map_map, Nat.add_zero]
  congr 1
  congr 1
  funext m
  show retryDelaySec (i + (m + 1)) = retryDelaySec (i + 1 + m)
  congr 1
  omega

theorem sumDelays_succ (i n : Nat) :
    sumDelays i (n + 1) = retryDelaySec i + sumDelays (i + 1) n := by
  unfold sumDelays
  rw [delaysFrom_succ, List.sum_cons]

theorem retryLoop_ok {ε : Type} (f : Nat → Except ε Unit) :
    ∀ (m fuel i time : Nat) (le : Option ε), m < fuel →
      (∀ j, j < m → (f (i + j)).failed = true) → f (i + m) = .ok () →
      (retryLoop (fun n _ => (f n, ())) none fuel i time le ()).result = .success ∧
      (retryLoop (fun n _ => (f n, ())) none fuel i time le ()).attempts = m + 1 := by
  intro m
  induction m with
  | zero =>
    intro fuel i time le hfuel _ hok
    obtain ⟨fuel', rfl⟩ : ∃ k, fuel = k + 1 := ⟨fuel - 1, by omega⟩
    rw [Nat.add_zero] at hok
    refine ⟨?_, ?_⟩ <;> simp [retryLoop, cancelDone, hok]
  | succ m ih =>
    intro fuel i time le hfuel hfail hok
    obtain ⟨fuel', rfl⟩ : ∃ k, fuel = k + 1 := ⟨fuel - 1, by omega⟩
    have h0 : (f i).failed = true := by
      have h := hfail 0 (by omega)
      rwa [Nat.add_zero] at h
    obtain ⟨e, he⟩ : ∃ e, f i = .error e := by
      rcases hfe : f i with e | v
      · exact ⟨e, rfl⟩
      · rw [hfe] at h0
        simp [Except.failed] at h0
    have ihx := ih fuel' (i + 1) (time + retryDelaySec i) (some e) (by omega)
      (fun j hj => by
        have h := hfail (j + 1) (by omega)
        rwa [show i + (j + 1) = i + 1 + j by omega] at h)
      (by rw [show i + 1 + m = i + (m + 1) by omega]; exact hok)
    constructor
    · simp [retryLoop, cancelDone, he]
      exact ihx.1
    · simp [retryLoop, cancelDone, he]
      exact ihx.2

theorem retryLoop_allFail {ε : Type} (f : Nat → Except ε Unit) (e : ε) :
    ∀ (fuel i time : Nat) (le : Option ε), 0 < fuel →
      (∀ j, j < fuel → (f (i + j)).failed = true) →
      f (i + (fuel - 1)) = .error e →
      retryLoop (fun n _ => (f n, ())) none fuel i time le ()
        = ⟨.failed e, (), fuel, delaysFrom i fuel, time + sumDelays i fuel⟩ := by
  intro fuel
  induction fuel with
  | zero => intro i time le h _ _; omega
  | succ n ih =>
    intro i time le _ hfail hlast
    rcases Nat.eq_zero_or_pos n with hn | hn
    · subst hn
      simp only [Nat.add_sub_cancel, Nat.add_zero] at hlast
      simp [retryLoop, cancelDone, hlast, delaysFrom, sumDelays]
      constructor <;> simp [List.range_succ]
    · have h0 : (f i).failed = true := by
        have h := hfail 0 (by omega)
        rwa [Nat.add_zero] at h
      obtain ⟨e0, he0⟩ : ∃ e0, f i = .error e0 := by
        rcases hfe : f i with e0 | v
        · exact ⟨e0, rfl⟩
        · rw [hfe] at h0
          simp [Except.failed] at h0
      have ihx := ih (i + 1) (time + retryDelaySec i) (some e0) hn
        (fun j hj => by
          have h := hfail (j + 1) (by omega)
          rwa [show i + (j + 1) = i + 1 + j by omega] at h)
        (by rw [show i + 1 + (n - 1) = i + (n + 1 - 1) by omega]; exact hlast)
      simp only [retryLoop, cancelDone, he0]
      rw [ihx, delaysFrom_succ, sumDelays_succ]
      simp [Nat.add_assoc]

theorem retryLoop_cancelDuringSleep {ε σ : Type} (fn : Nat → σ → Except ε Unit × σ) (t : Nat) :
    ∀ (j fuel i time : Nat) (le : Option ε) (st : σ), j + 1 < fuel →
      (∀ m s, m ≤ j → ((fn (i + m) s).1).failed = true) →
      time + sumDelays i j < t → t ≤ time + sumDelays i (j + 1) →
      (retryLoop fn (some t) fuel i time le st).result = .cancelled ∧
      (retryLoop fn (some t) fuel i time le st).attempts = j + 1 ∧
      (retryLoop fn (some t) fuel i time le st).sleeps = delaysFrom i (j + 1) ∧
      (retryLoop fn (some t) fuel i time le st).finishTime = time + sumDelays i (j + 1) := by
  intro j
  induction j with
  | zero =>
    intro fuel i time le st hfuel hfail hlow hhigh
    obtain ⟨f1, rfl⟩ : ∃ k, fuel = k + 2 := ⟨fuel - 2, by omega⟩
    have hs0 : sumDelays i 0 = 0 := rfl
    have hs1 : sumDelays i 1 = retryDelaySec i := by
      rw [sumDelays_succ]
      simp [sumDelays, delaysFrom]
    have hct : cancelDone (some t) time = false := by
      simp only [cancelDone, decide_eq_false_iff_not]
      omega
    rcases hfn : fn i st with ⟨r, st'⟩
    have h0 : r.failed = true := by
      have h := hfail 0 st (by omega)
      rw [Nat.add_zero, hfn] at h
      exact h
    obtain ⟨e0, rfl⟩ : ∃ e0, r = .error e0 := by
      rcases r with e0 | v
      · exact ⟨e0, rfl⟩
      · simp [Except.failed] at h0
    have hhigh' : t ≤ time + retryDelaySec i := by
      rw [show sumDelays i (0 + 1) = retryDelaySec i from hs1] at hhigh
      exact hhigh
    have hct2 : cancelDone (some t) (time + retryDelaySec i) = true := by
      simp only [cancelDone, decide_eq_true_eq]
      omega
    simp [retryLoop, hct, hfn, hct2, hs1, delaysFrom_succ, delaysFrom]
    simp [List.range_succ]
  | succ j ih =>
    intro fuel i time le st hfuel hfail hlow hhigh
    obtain ⟨f1, rfl⟩ : ∃ k, fuel = k + 1 := ⟨fuel - 1, by omega⟩
    have hct : cancelDone (some t) time = false := by
      simp only [cancelDone, decide_eq_false_iff_not]
      omega
    rcases hfn : fn i st with ⟨r, st'⟩
    have h0 : r.failed = true := by
      have h := hfail 0 st (by omega)
      rw [Nat.add_zero, hfn] at h
      exact h
    obtain ⟨e0, rfl⟩ : ∃ e0, r = .error e0 := by
      rcases r with e0 | v
      · exact ⟨e0, rfl⟩
      · simp [Except.failed] at h0
    have ihx := ih f1 (i + 1) (time + retryDelaySec i) (some e0) st' (by omega)
      (fun m s hm => by
        have h := hfail (m + 1) s (by omega)
        rwa [show i + (m + 1) = i + 1 + m by omega] at h)
      (by rw [sumDelays_succ] at hlow; omega)
      (by rw [sumDelays_succ] at hhigh; omega)
    refine ⟨?_, ?_, ?_, ?_⟩
    · simp only [retryLoop, hct, hfn]
      simp only [Bool.false_eq_true, if_false]
      exact ihx.1
    · simp only [retryLoop, hct, hfn, Bool.false_eq_true, if_false]
      rw [ihx.2.1]
    · simp only [retryLoop, hct, hfn, Bool.false_eq_true, if_false]
      rw [ihx.2.2.1, ← delaysFrom_succ]
    · simp only [retryLoop, hct, hfn, Bool.false_eq_true, if_false]
      rw [ihx.2.2.2, sumDelays_succ i (j + 1)]
      omega

/-- C4: for every attempt function handed to the retry policy: when it fails
on its first k calls (k < 5) and succeeds on call k+1, downloadFileWithRetry
returns the success result and invokes the function exactly k+1 times
(first conjunct); when all 5 attempts fail, it returns the error of the last
attempt, having invoked the function exactly maxRetries times (second
conjunct). -/
theorem downloadFileWithRetry_attemptCounts {ε : Type} (f : Nat → Except ε Unit) :
    (∀ k, k < maxRetries → (∀ j, j < k → (f j).failed = true) → f k = .ok () →
      (withRetry f none).result = .success ∧ (withRetry f none).attempts = k + 1) ∧
    (∀ e, (∀ j, j < maxRetries → (f j).failed = true) → f (maxRetries - 1) = .error e →
      (withRetry f none).result = .failed e ∧ (withRetry f none).attempts = maxRetries) := by
  constructor
  · intro k hk hfail hok
    exact retryLoop_ok f k maxRetries 0 0 none hk
      (fun j hj => by simpa using hfail j hj) (by simpa using hok)
  · intro e hfail hlast
    have h := retryLoop_allFail f e maxRetries 0 0 none (by decide)
      (fun j hj => by simpa using hfail j hj) (by simpa using hlast)
    have h2 : withRetry f none
        = ⟨.failed e, (), maxRetries, delaysFrom 0 maxRetries, 0 + sumDelays 0 maxRetries⟩ := h
    rw [h2]
    exact ⟨rfl, rfl⟩

theorem downloadFileWithRetry_attemptCounts_witness :
    ((withRetry (fun n => if n < 2 then Except.error "boom" else Except.ok ()) none).result
        = .success ∧
      (withRetry (fun n => if n < 2 then Except.error "boom" else Except.ok ()) none).attempts
        = 3) ∧
    ((withRetry (fun _ => (Except.error "dead" : Except String Unit)) none).result
        = .failed "dead" ∧
      (withRetry (fun _ => (Except.error "dead" : Except String Unit)) none).attempts
        = maxRetries) := by
  constructor
  · exact (downloadFileWithRetry_attemptCounts
      (fun n => if n < 2 then Except.error "boom" else Except.ok ())).1 2 (by decide)
      (by decide) rfl
  · exact (downloadFileWithRetry_attemptCounts
      (fun _ => (Except.error "dead" : Except String Unit))).2 "dead" (by decide) rfl

/-- C9: the backoff delay slept after the failed attempt of zero-based index
i equals i squared seconds plus the fixed base delay of 3 seconds, and this
delay is strictly monotone in the attempt index. -/
theorem retryDelaySec_quadratic_monotone :
    (∀ i, retryDelaySec i = i ^ 2 + 3) ∧
    (∀ i j, i < j → retryDelaySec i < retryDelaySec j) := by
  constructor
  · intro i
    rw [retryDelaySec, retryDelay]
    ring
  · intro i j h
    rw [retryDelaySec, retryDelaySec]
    have := Nat.mul_self_lt_mul_self h
    omega

theorem retryDelaySec_quadratic_monotone_witness :
    retryDelaySec 4 = 4 ^ 2 + 3 ∧ retryDelaySec 1 < retryDelaySec 2 :=
  ⟨retryDelaySec_quadratic_monotone.1 4,
    retryDelaySec_quadratic_monotone.2 1 2 (by decide)⟩

/-- C10: in a run where all 5 attempts fail, the policy sleeps after every
failed attempt, the final one included: the trace has exactly as many sleeps
as attempts, the last error is the returned result, and the virtual finish
time is the sum of all the sleeps — so the last error is returned only
after one trailing backoff delay that precedes no further attempt. -/
theorem downloadFileWithRetry_allFail_trailing_sleep {ε : Type}
    (f : Nat → Except ε Unit) (e : ε)
    (hfail : ∀ j, j < maxRetries → (f j).failed = true)
    (hlast : f (maxRetries - 1) = .error e) :
    (withRetry f none).result = .failed e ∧
    (withRetry f none).attempts = maxRetries ∧
    (withRetry f none).sleeps
      = [retryDelaySec 0, retryDelaySec 1, retryDelaySec 2, retryDelaySec 3, retryDelaySec 4] ∧
    (withRetry f none).sleeps.length = (withRetry f none).attempts ∧
    (withRetry f none).finishTime = (withRetry f none).sleeps.sum := by
  have h := retryLoop_allFail f e maxRetries 0 0 none (by decide)
    (fun j hj => by simpa using hfail j hj) (by simpa using hlast)
  have h2 : withRetry f none
      = ⟨.failed e, (), maxRetries, delaysFrom 0 maxRetries, 0 + sumDelays 0 maxRetries⟩ := h
  rw [h2]
  refine ⟨rfl, rfl, rfl, rfl, rfl⟩

theorem downloadFileWithRetry_allFail_trailing_sleep_witness :
    (withRetry (fun _ => (Except.error "dead" : Except String Unit)) none).result
        = .failed "dead" ∧
    (withRetry (fun _ => (Except.error "dead" : Except String Unit)) none).attempts
        = maxRetries ∧
    (withRetry (fun _ => (Except.error "dead" : Except String Unit)) none).sleeps
      = [retryDelaySec 0, retryDelaySec 1, retryDelaySec 2, retryDelaySec 3, retryDelaySec 4] ∧
    (withRetry (fun _ => (Except.error "dead" : Except String Unit)) none).sleeps.length
      = (withRetry (fun _ => (Except.error "dead" : Except String Unit)) none).attempts ∧
    (withRetry (fun _ => (Except.error "dead" : Except String Unit)) none).finishTime
      = (withRetry (fun _ => (Except.error "dead" : Except String Unit)) none).sleeps.sum :=
  downloadFileWithRetry_allFail_trailing_sleep (fun _ => Except.error "dead") "dead"
    (by decide) rfl

/-- C6 counterexample: the claim says a cancellation signal raised while the
policy sleeps ends the wait promptly.  In the virtual-time model attempts
and checks are instantaneous and only sleeps advance the clock, so a
promptly ended wait would finish at (or before) the signal time.  Here the
attempt function always fails and the signal is raised at second 1, in the
middle of the first 3-second backoff sleep (which spans seconds 0 to 3):
the policy still performs the full 3-second sleep (the trace records a sleep
of 3, not 1) and finishes at second 3, not at second 1 — because the
time.Sleep call of main.go line 324 is not interruptible by the context. -/
theorem retrySleep_ignores_cancellation_cex :
    (withRetry (fun _ => (Except.error "net" : Except String Unit)) (some 1)).result
        = .cancelled ∧
    (withRetry (fun _ => (Except.error "net" : Except String Unit)) (some 1)).attempts = 1 ∧
    (withRetry (fun _ => (Except.error "net" : Except String Unit)) (some 1)).sleeps = [3] ∧
    (withRetry (fun _ => (Except.error "net" : Except String Unit)) (some 1)).finishTime = 3 ∧
    ¬((withRetry (fun _ => (Except.error "net" : Except String Unit)) (some 1)).finishTime
        ≤ 1) := by
  refine ⟨rfl, rfl, rfl, rfl, by decide⟩

/-- C6 (amended): a cancellation signal raised during the backoff sleep that
follows the failed attempt of index j (with a further attempt still pending,
j + 1 < maxRetries) does not end the sleep early: the full backoff delay
elapses, and the cancellation is only observed at the next loop-top check,
at which point the policy returns the cancellation without invoking the
attempt function again — exactly j + 1 attempts are made, every performed
sleep has its full duration, and the policy finishes at the end of the
interrupted sleep, not at the signal time. -/
theorem retrySleep_cancellation_observed_after_full_sleep {ε σ : Type}
    (fn : Nat → σ → Except ε Unit × σ) (st : σ) (t j : Nat)
    (hj : j + 1 < maxRetries)
    (hfail : ∀ m s, m ≤ j → ((fn m s).1).failed = true)
    (hlow : sumDelays 0 j < t) (hhigh : t ≤ sumDelays 0 (j + 1)) :
    (downloadFileWithRetry fn (some t) st).result = .cancelled ∧
    (downloadFileWithRetry fn (some t) st).attempts = j + 1 ∧
    (downloadFileWithRetry fn (some t) st).sleeps = delaysFrom 0 (j + 1) ∧
    (downloadFileWithRetry fn (some t) st).finishTime = sumDelays 0 (j + 1) := by
  have h := retryLoop_cancelDuringSleep fn t j maxRetries 0 0 none st hj
    (fun m s hm => by simpa using hfail m s hm)
    (by simpa using hlow) (by simpa using hhigh)
  exact ⟨h.1, h.2.1, h.2.2.1, by simpa using h.2.2.2⟩

theorem retrySleep_cancellation_observed_after_full_sleep_witness :
    (downloadFileWithRetry (fun _ _ => ((Except.error "net" : Except String Unit), ()))
        (some 4) ()).result = .cancelled ∧
    (downloadFileWithRetry (fun _ _ => ((Except.error "net" : Except String Unit), ()))
        (some 4) ()).attempts = 2 ∧
    (downloadFileWithRetry (fun _ _ => ((Except.error "net" : Except String Unit), ()))
        (some 4) ()).sleeps = delaysFrom 0 2 ∧
    (downloadFileWithRetry (fun _ _ => ((Except.error "net" : Except String Unit), ()))
        (some 4) ()).finishTime = sumDelays 0 2 :=
  retrySleep_cancellation_observed_after_full_sleep
    (fun _ _ => ((Except.error "net" : Except String Unit), ())) () 4 1
    (by decide) (fun m s hm => rfl) (by decide) (by decide)

/-- C7 counterexample: the claim says an empty resolved descriptor list is
treated as a non-retryable error and Download returns an error to its
caller.  The code instead prints a notice and returns nil: on the empty
list Download does not return an error. -/
theorem download_emptyList_returns_ok_cex :
    (Download (.ok [])).failed = false := rfl

/-- C7 (amended): when the resolved descriptor list is empty, Download
prints a notice ("No files found") and returns success (a nil error) to its
caller without entering the transfer phase; it does not return an error. -/
theorem download_emptyList_success (r : Except String (List FileEntry))
    (h : r = .ok []) : Download r = .ok none := by
  rw [h]
  rfl

theorem download_emptyList_success_witness :
    Download (.ok ([] : List FileEntry)) = .ok none :=
  download_emptyList_success (.ok []) rfl

mutual
theorem fetchFileListEntry_eq (filter : String) (mk : String → String) :
    ∀ e : RemoteEntry, fetchFileListEntry filter mk e
      = ((entryFiles e).filter (fun pr => fileIncluded filter pr.1)).map (mkDescriptor mk)
  | .file p sz => by
    rw [fetchFileListEntry, entryFiles]
    by_cases h : fileIncluded filter p = true
    · simp [h, List.filter_cons, mkDescriptor]
    · simp [List.filter_cons, h]
  | .dir p children => by
    rw [fetchFileListEntry, entryFiles]
    exact fetchFileListRecursive_eq filter mk children
theorem fetchFileListRecursive_eq (filter : String) (mk : String → String) :
    ∀ es : RemoteEntries, fetchFileListRecursive filter mk es
      = ((entriesFiles es).filter (fun pr => fileIncluded filter pr.1)).map (mkDescriptor mk)
  | .nil => rfl
  | .cons e rest => by
    rw [fetchFileListRecursive, entriesFiles, List.filter_append, List.map_append,
      fetchFileListEntry_eq filter mk e, fetchFileListRecursive_eq filter mk rest]
end

/-- C5: over every listing tree, fetchFileListRecursive returns exactly the
file leaves whose path satisfies the inclusion condition — no filter set,
path nested under filter ++ "/", or path equal to the filter — turned into
descriptors; directories are always recursed into, since entriesFiles
collects the file leaves of every subtree regardless of the filter.  In
particular, filter "text_encoder_3" over the entries
(file "text_encoder_3/config.json" of size 10) and (file "other/file.bin"
of size 20) yields exactly the one descriptor for
"text_encoder_3/config.json". -/
theorem fetchFileListRecursive_subfolderFilter :
    (∀ (filter : String) (mk : String → String) (es : RemoteEntries),
      fetchFileListRecursive filter mk es
        = ((entriesFiles es).filter (fun pr => fileIncluded filter pr.1)).map
            (mkDescriptor mk)) ∧
    (∀ mk : String → String,
      fetchFileListRecursive "text_encoder_3" mk
          (.cons (.file "text_encoder_3/config.json" 10)
            (.cons (.file "other/file.bin" 20) .nil))
        = [⟨"text_encoder_3/config.json", 10, "file", mk "text_encoder_3/config.json"⟩]) := by
  constructor
  · exact fun filter mk es => fetchFileListRecursive_eq filter mk es
  · intro mk
    have h1 : fileIncluded "text_encoder_3" "text_encoder_3/config.json" = true := by decide
    have h2 : fileIncluded "text_encoder_3" "other/file.bin" = false := by decide
    simp [fetchFileListRecursive, fetchFileListEntry, h1, h2, mkDescriptor]
